import Mathlib

/-!
Verification of `dbms/programs/performance-test/PerformanceTest.cpp`.

Strings manipulated by the substitution expander are embedded as `List Char`
(`Str`).  The rescanning replace loop of `runThroughAllOptionsAndPush` can
fail to terminate in the original (a substitution value may reintroduce the
mask), so the whole expander is step-indexed by a fuel parameter; `none`
models a run that would not have finished within the given fuel.
-/

namespace PerfTest

abbrev Str := List Char

/-- The substitution token `"{" + name + "}"` built at the top of
`runThroughAllOptionsAndPush`. -/
def substitutionMask (name : Str) : Str := ('{' :: name) ++ ['}']

/-- `s.find(mask)` of `std::string`: index of the first occurrence of `mask`
in `s`, `none` standing for `npos`. -/
def strFind (mask : Str) : Str → Option Nat
  | [] => if mask.isEmpty then some 0 else none
  | c :: rest =>
    if mask.isPrefixOf (c :: rest) then some 0
    else (strFind mask rest).map (· + 1)

/-- `s.find(mask) != npos`. -/
def hasSubstr (mask s : Str) : Bool := (strFind mask s).isSome

/-- The inner `while` of `runThroughAllOptionsAndPush`: repeatedly find the
first occurrence of `mask` (searching from the start of the string each
time, exactly as the source does) and splice `value` in.  Fuel bounds the
number of replacements; the source loop does not terminate when a
replacement keeps the mask present. -/
def replaceLoop (mask value : Str) : Nat → Str → Option Str
  | 0, _ => none
  | fuel + 1, s =>
    match strFind mask s with
    | none => some s
    | some p => replaceLoop mask value fuel (s.take p ++ value ++ s.drop (p + mask.length))

/-- Run `f` over a list and concatenate the produced query lists, failing if
any element fails; this is the order in which the recursive calls of
`runThroughAllOptionsAndPush` push into `out_queries`. -/
def seqConcat {α β : Type} : List α → (α → Option (List β)) → Option (List β)
  | [], _ => some []
  | x :: rest, f =>
    match f x, seqConcat rest f with
    | some ys, some zs => some (ys ++ zs)
    | _, _ => none

/-- `runThroughAllOptionsAndPush` (PerformanceTest.cpp:751-786): walk the
ordered substitution list; a pair whose mask does not occur in the current
template is skipped; otherwise one branch per value is produced, every
occurrence of the mask replaced, and the remaining pairs are processed on
each branch; the base case emits the fully substituted query. -/
def runThroughAllOptionsAndPush : Nat → List (Str × List Str) → Str → Option (List Str)
  | 0, _, _ => none
  | _ + 1, [], templateQuery => some [templateQuery]
  | fuel + 1, (name, values) :: rest, templateQuery =>
    let mask := substitutionMask name
    if hasSubstr mask templateQuery then
      seqConcat values (fun v =>
        match replaceLoop mask v fuel templateQuery with
        | none => none
        | some q => runThroughAllOptionsAndPush fuel rest q)
    else
      runThroughAllOptionsAndPush fuel rest templateQuery

/-- `formatQueries` (PerformanceTest.cpp:742-747). -/
def formatQueries (fuel : Nat) (query : Str) (substitutionsToGenerate : List (Str × List Str)) :
    Option (List Str) :=
  runThroughAllOptionsAndPush fuel substitutionsToGenerate query

/-- Sum variant of `seqConcat`, used by the branch-sensitive query counter. -/
def seqSum {α : Type} : List α → (α → Option Nat) → Option Nat
  | [], _ => some 0
  | x :: rest, f =>
    match f x, seqSum rest f with
    | some n, some m => some (n + m)
    | _, _ => none

/-- Branch-sensitive count of the queries `runThroughAllOptionsAndPush`
produces: a pair contributes one branch per value when its mask occurs in
the current (partially substituted) template of a branch and is skipped
otherwise. -/
def countQueries : Nat → List (Str × List Str) → Str → Option Nat
  | 0, _, _ => none
  | _ + 1, [], _ => some 1
  | fuel + 1, (name, values) :: rest, templateQuery =>
    let mask := substitutionMask name
    if hasSubstr mask templateQuery then
      seqSum values (fun v =>
        match replaceLoop mask v fuel templateQuery with
        | none => none
        | some q => countQueries fuel rest q)
    else
      countQueries fuel rest templateQuery

/-- The count asserted by the specification: product of the value-list
lengths of exactly those variables whose mask occurs in the original
template, a factor 1 for the others. -/
def productOfOccurringLists (subs : List (Str × List Str)) (t : Str) : Nat :=
  subs.foldr (fun p acc => (if hasSubstr (substitutionMask p.1) t then p.2.length else 1) * acc) 1

/-! ## Test selection (`removeConfigurationsIf`, PerformanceTest.cpp:197-263) -/

/-- `FilterType` (PerformanceTest.cpp:187-192). -/
inductive FilterType where
  | Tag
  | Name
  | NameRegexp
deriving DecidableEq, Repr

/-- The filtering view of one test configuration: `config->has("name")` /
`config->getString("name", "")` and the `tags.tag[i]` entries are all the
checker reads. -/
structure TestConfigMeta where
  name : Option String
  tags : List String
deriving DecidableEq, Repr

/-- `remove_or_not` as computed by the checker lambda of
`removeConfigurationsIf` (PerformanceTest.cpp:201-239) before the `leave`
inversion.  `regexSearch pattern subject` abstracts
`std::regex_search(subject, std::regex(pattern))`; no claim here depends on
the regex semantics. -/
def matchesFilter (regexSearch : String → String → Bool) (filterType : FilterType)
    (values : List String) (config : TestConfigMeta) : Bool :=
  if values.length = 0 then false
  else
    match filterType with
    | FilterType.Tag => config.tags.any (fun tag => decide (tag ∈ values))
    | FilterType.Name => decide ((config.name.getD "") ∈ values)
    | FilterType.NameRegexp =>
      match config.name with
      | some _ => values.any (fun pat => regexSearch pat (config.name.getD ""))
      | none => false

/-- The full checker of `removeConfigurationsIf`, including the `leave`
inversion: `true` means the configuration is removed. -/
def removeChecker (regexSearch : String → String → Bool) (filterType : FilterType)
    (values : List String) (leave : Bool) (config : TestConfigMeta) : Bool :=
  if values.length = 0 then false
  else
    let m := matchesFilter regexSearch filterType values config
    if leave then !m else m

/-- `removeConfigurationsIf` (PerformanceTest.cpp:198-248): erase the
configurations the checker selects. -/
def removeConfigurationsIf (regexSearch : String → String → Bool) (filterType : FilterType)
    (values : List String) (leave : Bool) (configs : List TestConfigMeta) :
    List TestConfigMeta :=
  configs.filter (fun c => !(removeChecker regexSearch filterType values leave c))

/-! ## Stop conditions and per-run statistics

`TestStopConditions` / `StopConditionsSet` / `TestStats` live in headers that
are not part of the given sources; they are modelled from the
specification. -/

/-- Modelled from the spec: `TestStopConditions` (StopConditionsSet.h /
TestStopConditions.h are not under the given sources).  Spec §4.2: a set of
zero or more independently configured threshold predicates (rows read,
bytes read, total time, min-time/max-speed/avg-speed unchanged-for,
iterations); `reportX` stores the latest reported value, `areFulfilled`
is true iff ANY configured predicate's threshold is reached, `reset`
clears the reported values, and a set with no configured predicate is
`empty`. -/
structure TestStopConditions where
  totalTimeLimit : Option Nat := none
  rowsReadLimit : Option Nat := none
  bytesReadLimit : Option Nat := none
  iterationsLimit : Option Nat := none
  minTimeNotChangingLimit : Option Nat := none
  maxSpeedNotChangingLimit : Option Nat := none
  avgSpeedNotChangingLimit : Option Nat := none
  totalTimeValue : Nat := 0
  rowsReadValue : Nat := 0
  bytesReadValue : Nat := 0
  iterationsValue : Nat := 0
  minTimeNotChangingValue : Nat := 0
  maxSpeedNotChangingValue : Nat := 0
  avgSpeedNotChangingValue : Nat := 0
deriving DecidableEq, Repr

/-- Modelled from the spec: a configured predicate fires once the reported
value reaches its threshold. -/
def fulfilledOne : Option Nat → Nat → Bool
  | none, _ => false
  | some limit, v => limit ≤ v

/-- Modelled from the spec: no predicate is configured. -/
def TestStopConditions.empty (sc : TestStopConditions) : Bool :=
  sc.totalTimeLimit.isNone && sc.rowsReadLimit.isNone && sc.bytesReadLimit.isNone &&
  sc.iterationsLimit.isNone && sc.minTimeNotChangingLimit.isNone &&
  sc.maxSpeedNotChangingLimit.isNone && sc.avgSpeedNotChangingLimit.isNone

/-- Modelled from the spec: `areFulfilled()` — true iff ANY configured
predicate's threshold is currently met. -/
def TestStopConditions.areFulfilled (sc : TestStopConditions) : Bool :=
  fulfilledOne sc.totalTimeLimit sc.totalTimeValue ||
  fulfilledOne sc.rowsReadLimit sc.rowsReadValue ||
  fulfilledOne sc.bytesReadLimit sc.bytesReadValue ||
  fulfilledOne sc.iterationsLimit sc.iterationsValue ||
  fulfilledOne sc.minTimeNotChangingLimit sc.minTimeNotChangingValue ||
  fulfilledOne sc.maxSpeedNotChangingLimit sc.maxSpeedNotChangingValue ||
  fulfilledOne sc.avgSpeedNotChangingLimit sc.avgSpeedNotChangingValue

/-- Modelled from the spec: `reset()` clears all counters/timers to the
start-of-slot state, the configured thresholds stay. -/
def TestStopConditions.reset (sc : TestStopConditions) : TestStopConditions :=
  { sc with totalTimeValue := 0, rowsReadValue := 0, bytesReadValue := 0,
            iterationsValue := 0, minTimeNotChangingValue := 0,
            maxSpeedNotChangingValue := 0, avgSpeedNotChangingValue := 0 }

/-- Modelled from the spec: `reportIterations`. -/
def TestStopConditions.reportIterations (sc : TestStopConditions) (n : Nat) : TestStopConditions :=
  { sc with iterationsValue := n }

/-- Modelled from the spec: `reportRowsRead`. -/
def TestStopConditions.reportRowsRead (sc : TestStopConditions) (n : Nat) : TestStopConditions :=
  { sc with rowsReadValue := n }

/-- Modelled from the spec: `reportBytesReadUncompressed`. -/
def TestStopConditions.reportBytesReadUncompressed (sc : TestStopConditions) (n : Nat) :
    TestStopConditions :=
  { sc with bytesReadValue := n }

/-- Modelled from the spec: `reportTotalTime`. -/
def TestStopConditions.reportTotalTime (sc : TestStopConditions) (n : Nat) : TestStopConditions :=
  { sc with totalTimeValue := n }

/-- Modelled from the spec: `reportMinTimeNotChangingFor`. -/
def TestStopConditions.reportMinTimeNotChangingFor (sc : TestStopConditions) (n : Nat) :
    TestStopConditions :=
  { sc with minTimeNotChangingValue := n }

/-- Modelled from the spec: `reportMaxSpeedNotChangingFor`. -/
def TestStopConditions.reportMaxSpeedNotChangingFor (sc : TestStopConditions) (n : Nat) :
    TestStopConditions :=
  { sc with maxSpeedNotChangingValue := n }

/-- Modelled from the spec: `reportAverageSpeedNotChangingFor`. -/
def TestStopConditions.reportAverageSpeedNotChangingFor (sc : TestStopConditions) (n : Nat) :
    TestStopConditions :=
  { sc with avgSpeedNotChangingValue := n }

/-- Modelled from the spec: the fields of `TestStats` the orchestrator reads
and writes (TestStats.h is not under the given sources).  Floating-point
speed/quantile internals are not needed by any claim and are left out;
`queries` counts invocations that reached `updateQueryInfo`. -/
structure TestStats where
  ready : Bool := false
  exception : String := ""
  totalRowsRead : Nat := 0
  totalBytesRead : Nat := 0
  queries : Nat := 0
  lastQueryWasCancelled : Bool := false
deriving DecidableEq, Repr

/-- Modelled from the spec: a freshly cleared accumulator
(`statistics.clear()`). -/
def TestStats.init : TestStats := {}

/-- Modelled from the spec: `updateQueryInfo()` finalises the per-invocation
latency bookkeeping at the natural end of one query invocation. -/
def TestStats.updateQueryInfo (s : TestStats) : TestStats :=
  { s with queries := s.queries + 1 }

/-- `ExecutionType` (PerformanceTest.cpp:180-184). -/
inductive ExecutionType where
  | Loop
  | Once
deriving DecidableEq, Repr

/-! ## Execution model (`execute` / `runQueries` / the launch loop)

The backend connection is an external collaborator: one call of `execute`
is summarised by an environment-provided `ExecEffect` (aggregate progress,
whether an interrupt was delivered during the call, and whether the backend
raised an exception).  The environment is indexed by a global invocation
counter. -/

/-- Aggregate outcome the external execution service produces for one
`execute` call. -/
structure ExecEffect where
  exn : Option String := none
  sigint : Bool := false
  rows : Nat := 0
  bytes : Nat := 0
  timeMs : Nat := 0
deriving DecidableEq, Repr

/-- The orchestrator state threaded across `execute` calls: the sticky
`gotSIGINT` flag and the invocation counter indexing the environment. -/
structure ExecSt where
  gotSIGINT : Bool
  counter : Nat
deriving DecidableEq, Repr

/-- Trace events: one `invoke` per `execute` call (RemoteBlockInputStream
issued), one `reportIter` per `stop_conditions.reportIterations` call of the
loop in `runQueries`. -/
inductive Ev where
  | invoke (runIndex : Nat)
  | reportIter (runIndex : Nat) (iteration : Nat)
deriving DecidableEq, Repr

/-- Number of `invoke` events in a trace. -/
def invokesOf (tr : List Ev) : Nat :=
  tr.countP fun e =>
    match e with
    | Ev.invoke _ => true
    | _ => false

/-- The reported iteration counters of a trace, in order. -/
def itersOf (tr : List Ev) : List Nat :=
  tr.filterMap fun e =>
    match e with
    | Ev.reportIter _ i => some i
    | _ => none

/-- The grid of `(query_index, number_of_launch)` pairs in the iteration
order of `constructTotalInfo`. -/
def gridPairs (numQueries timesToRun : Nat) : List (Nat × Nat) :=
  (List.range numQueries).flatMap fun qi =>
    (List.range timesToRun).map fun launch => (qi, launch)

/-- Result of one modelled `execute` call. -/
structure ExecOut where
  stats : TestStats
  sc : TestStopConditions
  st : ExecSt
  exn : Option String
  trace : List Ev
deriving DecidableEq, Repr

/-- `execute` (PerformanceTest.cpp:670-691) with
`checkFulfilledConditionsAndUpdate` (693-717): accumulate the progress into
the statistics, report the cumulative counters and timers to the stop
conditions, cancel the stream when they are fulfilled or an interrupt
arrived (setting the sticky `gotSIGINT`), and run `updateQueryInfo` only
when the invocation was neither cancelled nor aborted by an exception. -/
def executeModel (env : Nat → ExecEffect) (runIdx : Nat)
    (stats : TestStats) (sc : TestStopConditions) (st : ExecSt) : ExecOut :=
  let e := env st.counter
  let stats1 := { stats with totalRowsRead := stats.totalRowsRead + e.rows,
                             totalBytesRead := stats.totalBytesRead + e.bytes }
  let sc1 := ((((((sc.reportRowsRead stats1.totalRowsRead).reportBytesReadUncompressed
      stats1.totalBytesRead).reportTotalTime e.timeMs).reportMinTimeNotChangingFor
      e.timeMs).reportMaxSpeedNotChangingFor e.timeMs).reportAverageSpeedNotChangingFor e.timeMs)
  let cancelled := sc1.areFulfilled || e.sigint
  let stats2 := { stats1 with lastQueryWasCancelled := cancelled }
  let stats3 := if e.exn.isNone && !cancelled then stats2.updateQueryInfo else stats2
  { stats := stats3, sc := sc1,
    st := { gotSIGINT := st.gotSIGINT || e.sigint, counter := st.counter + 1 },
    exn := e.exn, trace := [Ev.invoke runIdx] }

/-- Why the `Loop`-mode iteration loop stopped. -/
inductive StopReason where
  | sigint
  | fulfilled
  | exnStop (msg : String)
deriving DecidableEq, Repr

/-- Number of `invoke` events the `Loop`-mode iteration loop produces for a
given stop reason and number of reported iterations: every reported
iteration is followed by a re-invocation except the final one when the stop
conditions were fulfilled. -/
def expectedInvokes : StopReason → Nat → Nat
  | StopReason.fulfilled, n => n - 1
  | _, n => n

/-- Result of the `Loop`-mode iteration loop. -/
structure LoopOut where
  stats : TestStats
  sc : TestStopConditions
  st : ExecSt
  trace : List Ev
  reason : StopReason
deriving DecidableEq, Repr

/-- The `for (size_t iteration = 1; !gotSIGINT; ++iteration)` loop of
`runQueries` (PerformanceTest.cpp:648-655): while no interrupt is pending,
report the iteration counter, stop when the conditions are fulfilled and
re-invoke the service otherwise; an exception escapes to the enclosing
`catch`.  Fuel bounds the number of iterations. -/
def slotLoop (env : Nat → ExecEffect) (runIdx : Nat) :
    Nat → TestStats → TestStopConditions → ExecSt → Nat → Option LoopOut
  | 0, _, _, _, _ => none
  | fuel + 1, stats, sc, st, iteration =>
    if st.gotSIGINT then some ⟨stats, sc, st, [], StopReason.sigint⟩
    else
      let sc1 := sc.reportIterations iteration
      if sc1.areFulfilled then
        some ⟨stats, sc1, st, [Ev.reportIter runIdx iteration], StopReason.fulfilled⟩
      else
        let ex := executeModel env runIdx stats sc1 st
        match ex.exn with
        | some msg =>
          some ⟨ex.stats, ex.sc, ex.st, Ev.reportIter runIdx iteration :: ex.trace,
                StopReason.exnStop msg⟩
        | none =>
          match slotLoop env runIdx fuel ex.stats ex.sc ex.st (iteration + 1) with
          | none => none
          | some out =>
            some ⟨out.stats, out.sc, out.st,
                  Ev.reportIter runIdx iteration :: ex.trace ++ out.trace, out.reason⟩

/-- Result of one run slot. -/
structure SlotOut where
  stats : TestStats
  sc : TestStopConditions
  st : ExecSt
  trace : List Ev
deriving DecidableEq, Repr

/-- The body of the slot loop of `runQueries` (PerformanceTest.cpp:636-667):
clear the slot's statistics, invoke the service once inside `try`, loop in
`Loop` mode, record a caught exception's text in the slot's statistics, and
mark the slot ready unless `gotSIGINT` is set. -/
def runSlot (env : Nat → ExecEffect) (fuel : Nat) (execType : ExecutionType) (runIdx : Nat)
    (sc : TestStopConditions) (st : ExecSt) : Option SlotOut :=
  let ex := executeModel env runIdx TestStats.init sc st
  let afterTry : Option SlotOut :=
    match ex.exn with
    | some msg => some ⟨{ ex.stats with exception := msg }, ex.sc, ex.st, ex.trace⟩
    | none =>
      match execType with
      | ExecutionType.Once => some ⟨ex.stats, ex.sc, ex.st, ex.trace⟩
      | ExecutionType.Loop =>
        match slotLoop env runIdx fuel ex.stats ex.sc ex.st 1 with
        | none => none
        | some lo =>
          let stats1 :=
            match lo.reason with
            | StopReason.exnStop msg => { lo.stats with exception := msg }
            | _ => lo.stats
          some ⟨stats1, lo.sc, lo.st, ex.trace ++ lo.trace⟩
  afterTry.map fun so =>
    if so.st.gotSIGINT then so else { so with stats := { so.stats with ready := true } }

/-- Result of `runQueries` over a batch of slots. -/
structure QueriesOut where
  statsArr : List TestStats
  scArr : List TestStopConditions
  st : ExecSt
  trace : List Ev
deriving DecidableEq, Repr

/-- `runQueries` (PerformanceTest.cpp:634-668): process the queued slots in
order; each slot reads and writes `statistics_by_run[run_index]` and
`stop_conditions_by_run[run_index]`. -/
def runQueries (env : Nat → ExecEffect) (fuel : Nat) (execType : ExecutionType) :
    List Nat → List TestStats → List TestStopConditions → ExecSt → Option QueriesOut
  | [], statsArr, scArr, st => some ⟨statsArr, scArr, st, []⟩
  | i :: rest, statsArr, scArr, st =>
    match runSlot env fuel execType i (scArr.getD i {}) st with
    | none => none
    | some so =>
      match runQueries env fuel execType rest (statsArr.set i so.stats) (scArr.set i so.sc) so.st with
      | none => none
      | some out => some ⟨out.statsArr, out.scArr, out.st, so.trace ++ out.trace⟩

/-- Result of the launch loop. -/
structure LaunchesOut where
  statsArr : List TestStats
  scArr : List TestStopConditions
  st : ExecSt
  trace : List Ev
deriving DecidableEq, Repr

/-- The launch loop of `runTest` (PerformanceTest.cpp:585-604): for each
`number_of_launch` build the batch of slot indexes
`number_of_launch * queries.size() + query_index` (resetting each slot's
stop conditions), poll the interrupt listener (`envBetween`), break out when
`gotSIGINT` is set, and otherwise run the batch. -/
def runLaunches (env : Nat → ExecEffect) (envBetween : Nat → Bool) (fuel : Nat)
    (execType : ExecutionType) (numQueries : Nat) :
    List Nat → List TestStats → List TestStopConditions → ExecSt → Option LaunchesOut
  | [], statsArr, scArr, st => some ⟨statsArr, scArr, st, []⟩
  | launch :: rest, statsArr, scArr, st =>
    let idxs := (List.range numQueries).map fun qi => launch * numQueries + qi
    let scArr1 := idxs.foldl (fun acc i => acc.set i ((acc.getD i {}).reset)) scArr
    let st1 := if envBetween launch then { st with gotSIGINT := true } else st
    if st1.gotSIGINT then some ⟨statsArr, scArr1, st1, []⟩
    else
      match runQueries env fuel execType idxs statsArr scArr1 st1 with
      | none => none
      | some q =>
        match runLaunches env envBetween fuel execType numQueries rest q.statsArr q.scArr q.st with
        | none => none
        | some out => some ⟨out.statsArr, out.scArr, out.st, q.trace ++ out.trace⟩

/-! ## Reporting -/

/-- One entry of the `runs[]` array produced by `constructTotalInfo`;
metric values are rendered from fields no claim depends on and are left
out. -/
structure RunRecord where
  queryIndex : Nat
  launch : Nat
  query : Str
  exceptionText : Option String
deriving DecidableEq, Repr

/-- The `runs[]` construction of `constructTotalInfo`
(PerformanceTest.cpp:828-913): outer loop over `query_index`, inner loop
over `number_of_launch`; a slot whose statistics are not `ready` is
skipped; a non-empty exception string is attached to the record. -/
def constructTotalInfo (queries : List Str) (timesToRun : Nat) (statsArr : List TestStats) :
    List RunRecord :=
  (List.range queries.length).flatMap fun qi =>
    (List.range timesToRun).filterMap fun launch =>
      if (statsArr.getD (launch * queries.length + qi) {}).ready then
        some { queryIndex := qi, launch := launch, query := queries.getD qi [],
               exceptionText :=
                 if (statsArr.getD (launch * queries.length + qi) {}).exception = "" then none
                 else some (statsArr.getD (launch * queries.length + qi) {}).exception }
      else none

/-- One output chunk of `minOutput` (PerformanceTest.cpp:918-947), ending in
the newline the source appends; `getStat` abstracts
`TestStats::getStatisticByName`, which is not under the given sources. -/
def minOutputChunk (getStat : TestStats → String → String) (queries : List Str)
    (substitutionsMaps : List (List (String × String))) (mainMetric : String)
    (statsArr : List TestStats) (qi launch : Nat) : String :=
  (if 1 < queries.length then "query \"" ++ (queries.getD qi []).asString ++ "\", " else "")
  ++ (if 0 < substitutionsMaps.length then
        ((substitutionsMaps.getD qi []).map fun p => p.1 ++ " = " ++ p.2 ++ ", ").foldl
          (fun a b => a ++ b) ""
      else "")
  ++ "run " ++ toString (launch + 1) ++ ": " ++ mainMetric ++ " = "
  ++ getStat (statsArr.getD (launch * queries.length + qi) {}) mainMetric
  ++ "\n"

/-- The chunks `minOutput` appends, in emission order: outer loop over
`query_index`, inner loop over `number_of_launch`, one chunk per slot with
no `ready` check. -/
def minOutputChunks (getStat : TestStats → String → String) (queries : List Str)
    (timesToRun : Nat) (substitutionsMaps : List (List (String × String)))
    (mainMetric : String) (statsArr : List TestStats) : List String :=
  (List.range queries.length).flatMap fun qi =>
    (List.range timesToRun).map fun launch =>
      minOutputChunk getStat queries substitutionsMaps mainMetric statsArr qi launch

/-- `minOutput` (PerformanceTest.cpp:918-947): concatenation of the per-slot
chunks. -/
def minOutput (getStat : TestStats → String → String) (queries : List Str)
    (timesToRun : Nat) (substitutionsMaps : List (List (String × String)))
    (mainMetric : String) (statsArr : List TestStats) : String :=
  (minOutputChunks getStat queries timesToRun substitutionsMaps mainMetric statsArr).foldl
    (fun a b => a ++ b) ""

/-! ## `runTest` (PerformanceTest.cpp:408-610) -/

/-- `loop_metrics` (PerformanceTest.cpp:614-615). -/
def loop_metrics : List String :=
  ["min_time", "quantiles", "total_time", "queries_per_second", "rows_per_second",
   "bytes_per_second"]

/-- `non_loop_metrics` (PerformanceTest.cpp:617-618). -/
def non_loop_metrics : List String :=
  ["max_rows_per_second", "max_bytes_per_second", "avg_rows_per_second", "avg_bytes_per_second"]

/-- `checkMetricsInput` (PerformanceTest.cpp:612-632): in `Loop` mode the
first requested metric that belongs to `non_loop_metrics` is a
`BAD_ARGUMENTS` error, in `Once` mode the first one that belongs to
`loop_metrics` is. -/
def checkMetricsInput (execType : ExecutionType) (metrics : List String) : Except String Unit :=
  match execType with
  | ExecutionType.Loop =>
    match metrics.find? (fun m => decide (m ∈ non_loop_metrics)) with
    | some m => Except.error ("Wrong type of metric for loop execution type (" ++ m ++ ")")
    | none => Except.ok ()
  | ExecutionType.Once =>
    match metrics.find? (fun m => decide (m ∈ loop_metrics)) with
    | some m => Except.error ("Wrong type of metric for non-loop execution type (" ++ m ++ ")")
    | none => Except.ok ()

/-- The main-metric / metrics-list processing of `runTest`
(PerformanceTest.cpp:558-579): take `main_metric` from the first key of the
`main_metric` element; when present and missing from the metrics list,
append it; when absent, require a non-empty metrics list, make its head the
main metric, and reject lite output without an explicit main metric. -/
def setupMetrics (metrics0 : List String) (mainMetricKeys : List String) (lite : Bool) :
    Except String (List String × String) :=
  let mainMetric := mainMetricKeys.headD ""
  if mainMetric ≠ "" then
    Except.ok ((if mainMetric ∈ metrics0 then metrics0 else metrics0 ++ [mainMetric]), mainMetric)
  else if metrics0.isEmpty then Except.error ("You shoud specify at least one metric")
  else if lite then Except.error ("Specify main_metric for lite output")
  else Except.ok (metrics0, metrics0.headD "")

/-- The report `runTest` returns: a compact lite string or the structured
run records. -/
inductive TestOutput where
  | lite (s : String)
  | full (records : List RunRecord)
deriving DecidableEq, Repr

/-- The configuration fields `runTest` consumes.  `query` holds the values
of the `query` elements when present; `queryFile` holds the queries the
referenced file would yield (file reading itself is an external concern);
`substitutions` is the name-sorted map `constructSubstitutions` builds;
`stopConditions` is the loaded template (all-`none` when the element is
absent); `mainMetricKeys` are the keys of the `main_metric` element. -/
structure TestConfig where
  name : String := ""
  query : Option (List Str) := none
  queryFile : Option (List Str) := none
  ctype : Option String := none
  timesToRun : Nat := 1
  substitutions : Option (List (Str × List Str)) := none
  stopConditions : TestStopConditions := {}
  metricKeys : List String := []
  mainMetricKeys : List String := []

/-- A `runTest` outcome: the thrown `BAD_ARGUMENTS` message or the report,
together with the execution trace (empty when validation threw). -/
abbrev RunResult := Except String TestOutput × List Ev

/-- `type` parsing (PerformanceTest.cpp:524-535). -/
def parseType (name : String) : Option String → Except String ExecutionType
  | none => Except.error ("Missing type property in config: " ++ name)
  | some s =>
    if s = "loop" then Except.ok ExecutionType.Loop
    else if s = "once" then Except.ok ExecutionType.Once
    else Except.error ("Unknown type " ++ s ++ " in :" ++ name)

/-- The tail of `runTest` after the queries are fixed
(PerformanceTest.cpp:539-609): reject an empty stop-condition template,
clone it into one slot per `times_to_run * queries.size()`, process the
metrics, run the launch loop over freshly resized statistics, and render
the report.  `substitutions_maps` is never written by the source and is
passed to `minOutput` as the empty list. -/
def runTestExec (fuel : Nat) (lite : Bool) (getStat : TestStats → String → String)
    (execType : ExecutionType) (queries : List Str) (stopTemplate : TestStopConditions)
    (times : Nat) (metricKeys mainMetricKeys : List String)
    (env : Nat → ExecEffect) (envBetween : Nat → Bool) : Option RunResult :=
  if stopTemplate.empty then
    some (Except.error ("No termination conditions were found in config"), [])
  else
    match setupMetrics metricKeys mainMetricKeys lite with
    | Except.error e => some (Except.error e, [])
    | Except.ok (metrics, mainMetric) =>
      match (if 0 < metrics.length then checkMetricsInput execType metrics else Except.ok ()) with
      | Except.error e => some (Except.error e, [])
      | Except.ok _ =>
        match runLaunches env envBetween fuel execType queries.length (List.range times)
            (List.replicate (times * queries.length) TestStats.init)
            (List.replicate (times * queries.length) stopTemplate) ⟨false, 0⟩ with
        | none => none
        | some out =>
          some (Except.ok
            (if lite then
              TestOutput.lite (minOutput getStat queries times [] mainMetric out.statsArr)
            else TestOutput.full (constructTotalInfo queries times out.statsArr)), out.trace)

/-- The substitution block of `runTest` (PerformanceTest.cpp:509-522): when
a `substitutions` element is present, replace the query list by the
concatenation of each query's expansion. -/
def afterSubstitutions (fuel : Nat) (cfg : TestConfig) (queries0 : List Str) :
    Option (List Str) :=
  match cfg.substitutions with
  | none => some queries0
  | some subs => seqConcat queries0 (fun q => formatQueries fuel q subs)

/-- The middle of `runTest` (PerformanceTest.cpp:504-537): reject an empty
query list, expand the substitutions when present, and parse the execution
type. -/
def runTestSubst (fuel : Nat) (lite : Bool) (getStat : TestStats → String → String)
    (cfg : TestConfig) (env : Nat → ExecEffect) (envBetween : Nat → Bool)
    (queries0 : List Str) : Option RunResult :=
  if queries0.isEmpty then
    some (Except.error ("Did not find any query to execute: " ++ cfg.name), [])
  else
    match afterSubstitutions fuel cfg queries0 with
    | none => none
    | some queries =>
      match parseType cfg.name cfg.ctype with
      | Except.error e => some (Except.error e, [])
      | Except.ok t =>
        runTestExec fuel lite getStat t queries cfg.stopConditions cfg.timesToRun
          cfg.metricKeys cfg.mainMetricKeys env envBetween

/-- `runTest` (PerformanceTest.cpp:408-610), the settings block (415-460)
omitted: resolve the query source (462-502), then validate and execute.
`none` models a run that does not terminate within the fuel. -/
def runTest (fuel : Nat) (lite : Bool) (getStat : TestStats → String → String)
    (cfg : TestConfig) (env : Nat → ExecEffect) (envBetween : Nat → Bool) : Option RunResult :=
  match cfg.query, cfg.queryFile with
  | none, none =>
    some (Except.error ("Missing query fields in test's config: " ++ cfg.name), [])
  | some _, some _ =>
    some (Except.error ("Found both query and query_file fields. Choose only one"), [])
  | some qs, none => runTestSubst fuel lite getStat cfg env envBetween qs
  | none, some qs => runTestSubst fuel lite getStat cfg env envBetween qs

end PerfTest

namespace PerfTest

/-! ## Lemmas about the substitution expander -/

theorem seqConcat_length {α β : Type} (xs : List α) (f : α → Option (List β)) (g : α → Option Nat)
    (hpt : ∀ x ys, f x = some ys → g x = some ys.length) :
    ∀ ys, seqConcat xs f = some ys → seqSum xs g = some ys.length := by
  induction xs with
  | nil =>
    intro ys h
    simp only [seqConcat, Option.some.injEq] at h
    subst h
    simp [seqSum]
  | cons x rest ih =>
    intro ys h
    simp only [seqConcat] at h
    cases hfx : f x with
    | none => rw [hfx] at h; exact absurd h (by simp)
    | some a =>
      cases hrest : seqConcat rest f with
      | none => rw [hfx, hrest] at h; exact absurd h (by simp)
      | some b =>
        rw [hfx, hrest] at h
        simp only [Option.some.injEq] at h
        subst h
        simp only [seqSum]
        rw [hpt x a hfx, ih b hrest]
        simp

theorem replaceLoop_mono (mask value : Str) :
    ∀ (fuel : Nat) (s r : Str), replaceLoop mask value fuel s = some r →
      replaceLoop mask value (fuel + 1) s = some r := by
  intro fuel
  induction fuel with
  | zero => intro s r h; simp [replaceLoop] at h
  | succ fuel ih =>
    intro s r h
    simp only [replaceLoop] at h ⊢
    cases hf : strFind mask s with
    | none => rw [hf] at h; simpa using h
    | some p =>
      rw [hf] at h
      exact ih _ r h

theorem seqConcat_mono {α β : Type} (xs : List α) (f g : α → Option (List β))
    (hpt : ∀ x q, f x = some q → g x = some q) :
    ∀ r, seqConcat xs f = some r → seqConcat xs g = some r := by
  induction xs with
  | nil => intro r h; simpa [seqConcat] using h
  | cons x rest ih =>
    intro r h
    simp only [seqConcat] at h ⊢
    cases hfx : f x with
    | none => rw [hfx] at h; exact absurd h (by simp)
    | some a =>
      cases hrest : seqConcat rest f with
      | none => rw [hfx, hrest] at h; exact absurd h (by simp)
      | some b =>
        rw [hfx, hrest] at h
        rw [hpt x a hfx, ih b hrest]
        exact h

theorem runThroughAllOptionsAndPush_mono :
    ∀ (fuel : Nat) (subs : List (Str × List Str)) (t : Str) (r : List Str),
    runThroughAllOptionsAndPush fuel subs t = some r →
    runThroughAllOptionsAndPush (fuel + 1) subs t = some r := by
  intro fuel
  induction fuel with
  | zero => intro subs t r h; simp [runThroughAllOptionsAndPush] at h
  | succ fuel ih =>
    intro subs t r h
    cases subs with
    | nil => simpa [runThroughAllOptionsAndPush] using h
    | cons p rest =>
      obtain ⟨name, values⟩ := p
      simp only [runThroughAllOptionsAndPush] at h ⊢
      by_cases hocc : hasSubstr (substitutionMask name) t = true
      · simp only [hocc, if_true] at h ⊢
        refine seqConcat_mono values _ _ ?_ r h
        intro v q hv
        cases hrl : replaceLoop (substitutionMask name) v fuel t with
        | none => rw [hrl] at hv; exact absurd hv (by simp)
        | some q' =>
          rw [hrl] at hv
          rw [replaceLoop_mono _ _ _ _ _ hrl]
          exact ih rest q' q hv
      · simp only [Bool.not_eq_true] at hocc
        simp only [hocc, Bool.false_eq_true, if_false] at h ⊢
        exact ih rest t r h

/-- `seqConcat` carried along three pointwise-related functions: used to push
a skip of one substitution pair through the branching case. -/
theorem seqConcat_three {α β : Type} (Pu : β → Prop) (xs : List α)
    (f h g : α → Option (List β))
    (hpt : ∀ x tsx r, f x = some tsx → (∀ u ∈ tsx, Pu u) → h x = some r → g x = some r) :
    ∀ ts r, seqConcat xs f = some ts → (∀ u ∈ ts, Pu u) →
      seqConcat xs h = some r → seqConcat xs g = some r := by
  induction xs with
  | nil =>
    intro ts r _ _ hh
    simpa [seqConcat] using hh
  | cons x rest ih =>
    intro ts r hf hts hh
    simp only [seqConcat] at hf hh ⊢
    cases hfx : f x with
    | none => rw [hfx] at hf; exact absurd hf (by simp)
    | some a =>
      cases hfr : seqConcat rest f with
      | none => rw [hfx, hfr] at hf; exact absurd hf (by simp)
      | some b =>
        rw [hfx, hfr] at hf
        simp only [Option.some.injEq] at hf
        subst hf
        cases hhx : h x with
        | none => rw [hhx] at hh; exact absurd hh (by simp)
        | some c =>
          cases hhr : seqConcat rest h with
          | none => rw [hhx, hhr] at hh; exact absurd hh (by simp)
          | some d =>
            rw [hhx, hhr] at hh
            have h1 : g x = some c :=
              hpt x a c hfx (fun u hu => hts u (List.mem_append_left _ hu)) hhx
            have h2 : seqConcat rest g = some d :=
              ih b d hfr (fun u hu => hts u (List.mem_append_right _ hu)) hhr
            rw [h1, h2]
            exact hh

/-! ## Claim C1 -/

/-- Claim C1, counterexample: the claim says the number of produced queries
equals the product of the value-list lengths of exactly the variables whose
token occurs in the template.  With template `{a}` and the ordered map
`a ↦ ["{b}", "x"]`, `b ↦ ["1", "2"]` the claimed product is 2 (the token
`{b}` does not occur in the template), but the source produces the 3
queries `["1", "2", "x"]`: substituting the value `"{b}"` for `{a}`
introduces the token `{b}` into one branch. -/
theorem claim_C1_counterexample :
    (runThroughAllOptionsAndPush 10
        [("a".data, ["{b}".data, "x".data]), ("b".data, ["1".data, "2".data])]
        ("{a}".data)).map List.length = some 3 ∧
    productOfOccurringLists
        [("a".data, ["{b}".data, "x".data]), ("b".data, ["1".data, "2".data])]
        ("{a}".data) = 2 := by
  decide

/-- Claim C1 (amended): whenever the expansion terminates, the number of
produced queries equals the branch-sensitive count in which a variable
contributes one branch per value exactly when its token occurs in the
partially substituted template of that branch at its processing position
(and a factor 1 otherwise); the product over occurrence in the original
template is obtained only when no substitution value introduces or removes
a later token, and it fails in general (see the counterexample). -/
theorem claim_C1_amended :
    ∀ (fuel : Nat) (subs : List (Str × List Str)) (t : Str) (qs : List Str),
    runThroughAllOptionsAndPush fuel subs t = some qs →
    countQueries fuel subs t = some qs.length := by
  intro fuel
  induction fuel with
  | zero => intro subs t qs h; simp [runThroughAllOptionsAndPush] at h
  | succ fuel ih =>
    intro subs t qs h
    cases subs with
    | nil =>
      simp only [runThroughAllOptionsAndPush, Option.some.injEq] at h
      subst h
      simp [countQueries]
    | cons p rest =>
      obtain ⟨name, values⟩ := p
      simp only [runThroughAllOptionsAndPush] at h
      simp only [countQueries]
      by_cases hocc : hasSubstr (substitutionMask name) t = true
      · simp only [hocc, if_true] at h ⊢
        refine seqConcat_length values _ _ ?_ qs h
        intro v ys hv
        cases hrl : replaceLoop (substitutionMask name) v fuel t with
        | none => rw [hrl] at hv; exact absurd hv (by simp)
        | some q =>
          rw [hrl] at hv
          exact ih rest q ys hv
      · simp only [Bool.not_eq_true] at hocc
        simp only [hocc, Bool.false_eq_true, if_false] at h ⊢
        exact ih rest t qs h

/-- Claim C1, witness: the amended statement evaluated on the
counterexample's inputs. -/
theorem claim_C1_witness :
    countQueries 10
      [("a".data, ["{b}".data, "x".data]), ("b".data, ["1".data, "2".data])]
      ("{a}".data) = some 3 := by
  have h := claim_C1_amended 10
    [("a".data, ["{b}".data, "x".data]), ("b".data, ["1".data, "2".data])]
    ("{a}".data) (["1".data, "2".data, "x".data]) (by decide)
  simpa using h

/-! ## Claim C8 -/

/-- Claim C8, counterexample: the claim says removing a variable whose token
does not occur in the template leaves the expansion unchanged.  The token
`{x}` does not occur in the template `{a}`, yet removing `x ↦ ["1", "2"]`
from the map `a ↦ ["{x}"], x ↦ ["1", "2"]` changes the result from
`["1", "2"]` to `["{x}"]`: the value substituted for `{a}` introduces the
token `{x}`. -/
theorem claim_C8_counterexample :
    hasSubstr (substitutionMask ("x".data)) ("{a}".data) = false ∧
    runThroughAllOptionsAndPush 10
        [("a".data, ["{x}".data]), ("x".data, ["1".data, "2".data])] ("{a}".data) ≠
      runThroughAllOptionsAndPush 10 [("a".data, ["{x}".data])] ("{a}".data) := by
  decide

/-- Claim C8 (amended): adding or removing a variable leaves the produced
query list unchanged provided its token occurs in none of the partially
substituted templates present at the variable's processing position (for a
variable processed first this is exactly "the token does not occur in the
template"); non-occurrence in the original template alone is not enough,
because an earlier variable's value can introduce the token (see the
counterexample). -/
theorem claim_C8_amended :
    ∀ (fuel : Nat) (pre : List (Str × List Str)) (t : Str) (ts : List Str)
      (name : Str) (values : List Str) (post : List (Str × List Str)) (r : List Str),
    runThroughAllOptionsAndPush fuel pre t = some ts →
    (∀ u ∈ ts, hasSubstr (substitutionMask name) u = false) →
    runThroughAllOptionsAndPush fuel (pre ++ (name, values) :: post) t = some r →
    runThroughAllOptionsAndPush fuel (pre ++ post) t = some r := by
  intro fuel
  induction fuel with
  | zero => intro pre t ts name values post r h; simp [runThroughAllOptionsAndPush] at h
  | succ fuel ih =>
    intro pre t ts name values post r hpre hts h
    cases pre with
    | nil =>
      simp only [runThroughAllOptionsAndPush, Option.some.injEq] at hpre
      subst hpre
      simp only [List.nil_append] at h ⊢
      simp only [runThroughAllOptionsAndPush] at h
      have hocc := hts t (by simp)
      simp only [hocc, Bool.false_eq_true, if_false] at h
      exact runThroughAllOptionsAndPush_mono fuel post t r h
    | cons p pre' =>
      obtain ⟨m, ws⟩ := p
      simp only [List.cons_append] at h ⊢
      simp only [runThroughAllOptionsAndPush] at h hpre ⊢
      by_cases hocc : hasSubstr (substitutionMask m) t = true
      · simp only [hocc, if_true] at h hpre ⊢
        refine seqConcat_three (fun u => hasSubstr (substitutionMask name) u = false) ws
          _ _ _ ?_ ts r hpre hts h
        intro w tsw rw' hw htsw hw2
        cases hrl : replaceLoop (substitutionMask m) w fuel t with
        | none => rw [hrl] at hw; exact absurd hw (by simp)
        | some t' =>
          rw [hrl] at hw hw2
          exact ih pre' t' tsw name values post rw' hw htsw hw2
      · simp only [Bool.not_eq_true] at hocc
        simp only [hocc, Bool.false_eq_true, if_false] at h hpre ⊢
        exact ih pre' t ts name values post r hpre hts h

/-- Claim C8, witness: removing the inert variable `x` (token nowhere in
the intermediate templates `"1 {b}"`, `"2 {b}"`) does not change the
expansion of `"{a} {b}"`. -/
theorem claim_C8_witness :
    runThroughAllOptionsAndPush 10
      ([("a".data, ["1".data, "2".data])] ++ [("b".data, ["3".data])])
      ("{a} {b}".data) = some ["1 3".data, "2 3".data] :=
  claim_C8_amended 10 [("a".data, ["1".data, "2".data])] ("{a} {b}".data)
    ["1 {b}".data, "2 {b}".data] ("x".data) (["9".data]) [("b".data, ["3".data])]
    ["1 3".data, "2 3".data] (by decide) (by decide) (by decide)

end PerfTest

namespace PerfTest

/-! ## Claim C7 -/

/-- Claim C7, counterexample: the claim says a specification without a name
field never matches a name filter for any filter value list.  The source
reads the missing name as the empty string
(`config->getString("name", "")`), so the value list `[""]` does match the
nameless specification: an exclude-name pass drops it and an include-name
pass keeps it. -/
theorem claim_C7_counterexample :
    matchesFilter (fun _ _ => false) FilterType.Name [""] ⟨none, []⟩ = true ∧
    removeConfigurationsIf (fun _ _ => false) FilterType.Name [""] false [⟨none, []⟩] = [] ∧
    removeConfigurationsIf (fun _ _ => false) FilterType.Name [""] true [⟨none, []⟩] =
      [⟨none, []⟩] := by
  decide

/-- Claim C7 (amended): a specification without a name field never matches a
name-regex filter, for any patterns and any regex semantics; it matches a
name filter exactly when the filter list contains the empty string (the
missing name is read as `""`), so for filter lists not containing `""` it
is never dropped by an exclude name/name-regex pass and, the empty no-op
list aside, never kept by an include name/name-regex pass. -/
theorem claim_C7_amended :
    ∀ (regexSearch : String → String → Bool) (values : List String) (c : TestConfigMeta),
    c.name = none →
    matchesFilter regexSearch FilterType.NameRegexp values c = false ∧
    ((¬ "" ∈ values) → matchesFilter regexSearch FilterType.Name values c = false) ∧
    (∀ configs : List TestConfigMeta, c ∈ configs →
      ((¬ "" ∈ values) →
        c ∈ removeConfigurationsIf regexSearch FilterType.Name values false configs) ∧
      c ∈ removeConfigurationsIf regexSearch FilterType.NameRegexp values false configs ∧
      (values ≠ [] → (¬ "" ∈ values) →
        c ∉ removeConfigurationsIf regexSearch FilterType.Name values true configs) ∧
      (values ≠ [] →
        c ∉ removeConfigurationsIf regexSearch FilterType.NameRegexp values true configs)) := by
  intro regexSearch values c hname
  have hre : matchesFilter regexSearch FilterType.NameRegexp values c = false := by
    simp only [matchesFilter, hname]
    by_cases hv : values.length = 0 <;> simp [hv]
  have hnm : (¬ "" ∈ values) → matchesFilter regexSearch FilterType.Name values c = false := by
    intro hnot
    simp only [matchesFilter, hname]
    by_cases hv : values.length = 0 <;> simp [hv, Option.getD, hnot]
  refine ⟨hre, hnm, ?_⟩
  intro configs hc
  have hvne : values ≠ [] → ¬ values.length = 0 := by
    intro hne h0
    exact hne (List.length_eq_zero.mp h0)
  refine ⟨?_, ?_, ?_, ?_⟩
  · intro hnot
    have : removeChecker regexSearch FilterType.Name values false c = false := by
      simp only [removeChecker]
      by_cases hv : values.length = 0 <;> simp [hv, hnm hnot]
    simp [removeConfigurationsIf, List.mem_filter, hc, this]
  · have : removeChecker regexSearch FilterType.NameRegexp values false c = false := by
      simp only [removeChecker]
      by_cases hv : values.length = 0 <;> simp [hv, hre]
    simp [removeConfigurationsIf, List.mem_filter, hc, this]
  · intro hne hnot
    have : removeChecker regexSearch FilterType.Name values true c = true := by
      simp only [removeChecker]
      simp [hvne hne, hnm hnot]
    simp [removeConfigurationsIf, List.mem_filter, this]
  · intro hne
    have : removeChecker regexSearch FilterType.NameRegexp values true c = true := by
      simp only [removeChecker]
      simp [hvne hne, hre]
    simp [removeConfigurationsIf, List.mem_filter, this]

/-- Claim C7, witness: a nameless specification survives an exclude-name
pass with values `["x"]`. -/
theorem claim_C7_witness :
    (⟨none, []⟩ : TestConfigMeta) ∈
      removeConfigurationsIf (fun _ _ => false) FilterType.Name ["x"] false [⟨none, []⟩] :=
  (((claim_C7_amended (fun _ _ => false) ["x"] ⟨none, []⟩ rfl).2.2
      [⟨none, []⟩] (by decide)).1 (by decide))

end PerfTest

namespace PerfTest

/-! ## Lemmas about the execution model -/

@[simp] theorem itersOf_nil : itersOf [] = [] := rfl

@[simp] theorem itersOf_cons_invoke (i : Nat) (tr : List Ev) :
    itersOf (Ev.invoke i :: tr) = itersOf tr := rfl

@[simp] theorem itersOf_cons_report (i k : Nat) (tr : List Ev) :
    itersOf (Ev.reportIter i k :: tr) = k :: itersOf tr := rfl

@[simp] theorem itersOf_append (a b : List Ev) : itersOf (a ++ b) = itersOf a ++ itersOf b := by
  simp [itersOf]

@[simp] theorem invokesOf_nil : invokesOf [] = 0 := rfl

@[simp] theorem invokesOf_cons_invoke (i : Nat) (tr : List Ev) :
    invokesOf (Ev.invoke i :: tr) = invokesOf tr + 1 := by
  simp [invokesOf, List.countP_cons]

@[simp] theorem invokesOf_cons_report (i k : Nat) (tr : List Ev) :
    invokesOf (Ev.reportIter i k :: tr) = invokesOf tr := by
  simp [invokesOf, List.countP_cons]

@[simp] theorem invokesOf_append (a b : List Ev) :
    invokesOf (a ++ b) = invokesOf a + invokesOf b := by
  simp [invokesOf, List.countP_append]

@[simp] theorem executeModel_exn (env : Nat → ExecEffect) (i : Nat) (s : TestStats)
    (sc : TestStopConditions) (st : ExecSt) :
    (executeModel env i s sc st).exn = (env st.counter).exn := rfl

@[simp] theorem executeModel_trace (env : Nat → ExecEffect) (i : Nat) (s : TestStats)
    (sc : TestStopConditions) (st : ExecSt) :
    (executeModel env i s sc st).trace = [Ev.invoke i] := rfl

@[simp] theorem executeModel_gotSIGINT (env : Nat → ExecEffect) (i : Nat) (s : TestStats)
    (sc : TestStopConditions) (st : ExecSt) :
    (executeModel env i s sc st).st.gotSIGINT = (st.gotSIGINT || (env st.counter).sigint) := rfl

theorem slotLoop_props (env : Nat → ExecEffect) (i : Nat) :
    ∀ (fuel : Nat) (stats : TestStats) (sc : TestStopConditions) (st : ExecSt)
      (iteration : Nat) (out : LoopOut),
    slotLoop env i fuel stats sc st iteration = some out →
    itersOf out.trace = List.range' iteration (itersOf out.trace).length ∧
    invokesOf out.trace = expectedInvokes out.reason (itersOf out.trace).length ∧
    (out.reason = StopReason.fulfilled → out.sc.areFulfilled = true) ∧
    (out.reason = StopReason.sigint → out.st.gotSIGINT = true) ∧
    (out.reason = StopReason.fulfilled → itersOf out.trace ≠ []) := by
  intro fuel
  induction fuel with
  | zero => intro stats sc st iteration out h; simp [slotLoop] at h
  | succ fuel ih =>
    intro stats sc st iteration out h
    simp only [slotLoop] at h
    by_cases hsig : st.gotSIGINT = true
    · simp only [hsig, if_true, Option.some.injEq] at h
      subst h
      exact ⟨rfl, rfl, by simp, fun _ => hsig, by simp⟩
    · simp only [Bool.not_eq_true] at hsig
      simp only [hsig, Bool.false_eq_true, if_false] at h
      by_cases hful : (sc.reportIterations iteration).areFulfilled = true
      · simp only [hful, if_true, Option.some.injEq] at h
        subst h
        refine ⟨?_, ?_, fun _ => hful, by simp, by simp⟩
        · simp [List.range']
        · simp [expectedInvokes]
      · simp only [hful, Bool.false_eq_true, if_false] at h
        cases hexn : (executeModel env i stats (sc.reportIterations iteration) st).exn with
        | some msg =>
          rw [hexn] at h
          simp only [Option.some.injEq] at h
          subst h
          refine ⟨?_, ?_, by simp, by simp, by simp⟩
          · simp [List.range']
          · simp [expectedInvokes]
        | none =>
          rw [hexn] at h
          cases hrec : slotLoop env i fuel
              (executeModel env i stats (sc.reportIterations iteration) st).stats
              (executeModel env i stats (sc.reportIterations iteration) st).sc
              (executeModel env i stats (sc.reportIterations iteration) st).st (iteration + 1) with
          | none => rw [hrec] at h; exact absurd h (by simp)
          | some out' =>
            rw [hrec] at h
            simp only [Option.some.injEq] at h
            subst h
            obtain ⟨ih1, ih2, ih3, ih4, ih5⟩ := ih _ _ _ _ _ hrec
            simp only [executeModel_trace, List.cons_append, List.nil_append,
              itersOf_cons_report, itersOf_cons_invoke, invokesOf_cons_report,
              invokesOf_cons_invoke]
            refine ⟨?_, ?_, ih3, ih4, by simp⟩
            · rw [List.length_cons, List.range'_succ]
              rw [← ih1]
            · cases hr : out'.reason with
              | fulfilled =>
                rw [hr] at ih2
                have h5 := ih5 hr
                have hlen : 1 ≤ (itersOf out'.trace).length := by
                  cases hit : itersOf out'.trace with
                  | nil => exact absurd hit h5
                  | cons a b => simp
                simp only [expectedInvokes, List.length_cons] at ih2 ⊢
                omega
              | sigint =>
                rw [hr] at ih2
                simp only [expectedInvokes, List.length_cons] at ih2 ⊢
                omega
              | exnStop msg =>
                rw [hr] at ih2
                simp only [expectedInvokes, List.length_cons] at ih2 ⊢
                omega

theorem slotLoop_no_sigint (env : Nat → ExecEffect) (i : Nat)
    (hs : ∀ n, (env n).sigint = false) :
    ∀ (fuel : Nat) (stats : TestStats) (sc : TestStopConditions) (st : ExecSt)
      (iteration : Nat) (out : LoopOut), st.gotSIGINT = false →
    slotLoop env i fuel stats sc st iteration = some out → out.st.gotSIGINT = false := by
  intro fuel
  induction fuel with
  | zero => intro stats sc st iteration out _ h; simp [slotLoop] at h
  | succ fuel ih =>
    intro stats sc st iteration out hst h
    simp only [slotLoop] at h
    simp only [hst, Bool.false_eq_true, if_false] at h
    by_cases hful : (sc.reportIterations iteration).areFulfilled = true
    · simp only [hful, if_true, Option.some.injEq] at h
      subst h
      exact hst
    · simp only [hful, Bool.false_eq_true, if_false] at h
      cases hexn : (executeModel env i stats (sc.reportIterations iteration) st).exn with
      | some msg =>
        rw [hexn] at h
        simp only [Option.some.injEq] at h
        subst h
        simp [hst, hs]
      | none =>
        rw [hexn] at h
        cases hrec : slotLoop env i fuel
            (executeModel env i stats (sc.reportIterations iteration) st).stats
            (executeModel env i stats (sc.reportIterations iteration) st).sc
            (executeModel env i stats (sc.reportIterations iteration) st).st (iteration + 1) with
        | none => rw [hrec] at h; exact absurd h (by simp)
        | some out' =>
          rw [hrec] at h
          simp only [Option.some.injEq] at h
          subst h
          have hgoal := ih _ _ _ _ out' (by simp [hst, hs]) hrec
          exact hgoal

theorem runSlot_no_sigint (env : Nat → ExecEffect) (fuel : Nat) (t : ExecutionType) (i : Nat)
    (sc : TestStopConditions) (st : ExecSt) (so : SlotOut)
    (hs : ∀ n, (env n).sigint = false) (hst : st.gotSIGINT = false) :
    runSlot env fuel t i sc st = some so →
    so.st.gotSIGINT = false ∧ so.stats.ready = true := by
  intro h
  simp only [runSlot] at h
  have hex : (executeModel env i TestStats.init sc st).st.gotSIGINT = false := by
    simp [hst, hs]
  cases hexn : (executeModel env i TestStats.init sc st).exn with
  | some msg =>
    rw [hexn] at h
    simp only [Option.map_some', Option.some.injEq] at h
    subst h
    simp [hst, hs]
  | none =>
    rw [hexn] at h
    cases t with
    | Once =>
      simp only [Option.map_some', Option.some.injEq] at h
      subst h
      simp [hst, hs]
    | Loop =>
      cases hrec : slotLoop env i fuel (executeModel env i TestStats.init sc st).stats
          (executeModel env i TestStats.init sc st).sc
          (executeModel env i TestStats.init sc st).st 1 with
      | none => rw [hrec] at h; exact absurd h (by simp)
      | some lo =>
        rw [hrec] at h
        have hlo : lo.st.gotSIGINT = false :=
          slotLoop_no_sigint env i hs fuel _ _ _ _ lo hex hrec
        simp only [Option.map_some', Option.some.injEq] at h
        subst h
        cases hr : lo.reason <;> simp [hr, hlo]

theorem runSlot_trace_head (env : Nat → ExecEffect) (fuel : Nat) (t : ExecutionType) (i : Nat)
    (sc : TestStopConditions) (st : ExecSt) (so : SlotOut) :
    runSlot env fuel t i sc st = some so → ∃ rest, so.trace = Ev.invoke i :: rest := by
  intro h
  simp only [runSlot] at h
  cases hexn : (executeModel env i TestStats.init sc st).exn with
  | some msg =>
    rw [hexn] at h
    simp only [Option.map_some', Option.some.injEq] at h
    subst h
    exact ⟨[], by split <;> rfl⟩
  | none =>
    rw [hexn] at h
    cases t with
    | Once =>
      simp only [Option.map_some', Option.some.injEq] at h
      subst h
      exact ⟨[], by split <;> rfl⟩
    | Loop =>
      cases hrec : slotLoop env i fuel (executeModel env i TestStats.init sc st).stats
          (executeModel env i TestStats.init sc st).sc
          (executeModel env i TestStats.init sc st).st 1 with
      | none => rw [hrec] at h; exact absurd h (by simp)
      | some lo =>
        rw [hrec] at h
        simp only [Option.map_some', Option.some.injEq] at h
        subst h
        exact ⟨lo.trace, by split <;> simp⟩

theorem runSlot_once_trace (env : Nat → ExecEffect) (fuel : Nat) (i : Nat)
    (sc : TestStopConditions) (st : ExecSt) (so : SlotOut) :
    runSlot env fuel ExecutionType.Once i sc st = some so → so.trace = [Ev.invoke i] := by
  intro h
  simp only [runSlot] at h
  cases hexn : (executeModel env i TestStats.init sc st).exn with
  | some msg =>
    rw [hexn] at h
    simp only [Option.map_some', Option.some.injEq] at h
    subst h
    split <;> rfl
  | none =>
    rw [hexn] at h
    simp only [Option.map_some', Option.some.injEq] at h
    subst h
    split <;> rfl

theorem runSlot_exception (env : Nat → ExecEffect) (fuel : Nat) (t : ExecutionType) (i : Nat)
    (sc : TestStopConditions) (st : ExecSt) (so : SlotOut) (msg : String)
    (hmsg : (env st.counter).exn = some msg) :
    runSlot env fuel t i sc st = some so → so.stats.exception = msg := by
  intro h
  simp only [runSlot] at h
  have hexn : (executeModel env i TestStats.init sc st).exn = some msg := by
    simp [hmsg]
  rw [hexn] at h
  simp only [Option.map_some', Option.some.injEq] at h
  subst h
  split <;> rfl

theorem getD_set_self {α : Type} :
    ∀ (l : List α) (i : Nat) (a d : α), i < l.length → (l.set i a).getD i d = a := by
  intro l
  induction l with
  | nil => intro i a d h; simp at h
  | cons x rest ih =>
    intro i a d h
    cases i with
    | zero => simp [List.set, List.getD]
    | succ j =>
      simp only [List.set, List.getD_cons_succ]
      exact ih j a d (by simpa using h)

theorem getD_set_ne {α : Type} :
    ∀ (l : List α) (i j : Nat) (a d : α), i ≠ j → (l.set i a).getD j d = l.getD j d := by
  intro l
  induction l with
  | nil => intro i j a d _; simp [List.set]
  | cons x rest ih =>
    intro i j a d hne
    cases i with
    | zero =>
      cases j with
      | zero => exact absurd rfl hne
      | succ j' => simp [List.set, List.getD_cons_succ]
    | succ i' =>
      cases j with
      | zero => simp [List.set, List.getD_cons_zero]
      | succ j' =>
        simp only [List.set, List.getD_cons_succ]
        exact ih i' j' a d (by omega)

theorem runQueries_length (env : Nat → ExecEffect) (fuel : Nat) (t : ExecutionType) :
    ∀ (idxs : List Nat) (statsArr : List TestStats) (scArr : List TestStopConditions)
      (st : ExecSt) (out : QueriesOut),
    runQueries env fuel t idxs statsArr scArr st = some out →
    out.statsArr.length = statsArr.length := by
  intro idxs
  induction idxs with
  | nil =>
    intro statsArr scArr st out h
    simp only [runQueries, Option.some.injEq] at h
    subst h
    rfl
  | cons i rest ih =>
    intro statsArr scArr st out h
    simp only [runQueries] at h
    split at h
    · exact absurd h (by simp)
    · rename_i so hso
      split at h
      · exact absurd h (by simp)
      · rename_i out' hrest
        simp only [Option.some.injEq] at h
        subst h
        have := ih _ _ _ _ hrest
        simpa [List.length_set] using this

theorem runQueries_untouched (env : Nat → ExecEffect) (fuel : Nat) (t : ExecutionType) :
    ∀ (idxs : List Nat) (statsArr : List TestStats) (scArr : List TestStopConditions)
      (st : ExecSt) (out : QueriesOut),
    runQueries env fuel t idxs statsArr scArr st = some out →
    ∀ j, j ∉ idxs → out.statsArr.getD j TestStats.init = statsArr.getD j TestStats.init := by
  intro idxs
  induction idxs with
  | nil =>
    intro statsArr scArr st out h j _
    simp only [runQueries, Option.some.injEq] at h
    subst h
    rfl
  | cons i rest ih =>
    intro statsArr scArr st out h j hj
    simp only [runQueries] at h
    split at h
    · exact absurd h (by simp)
    · rename_i so hso
      split at h
      · exact absurd h (by simp)
      · rename_i out' hrest
        simp only [Option.some.injEq] at h
        subst h
        have hji : j ≠ i := fun hji => hj (by simp [hji])
        have hjr : j ∉ rest := fun hjr => hj (by simp [hjr])
        have h1 := ih _ _ _ _ hrest j hjr
        simp only [h1]
        exact getD_set_ne statsArr i j so.stats TestStats.init (fun he => hji he.symm)

theorem runQueries_ready (env : Nat → ExecEffect) (fuel : Nat) (t : ExecutionType)
    (hs : ∀ n, (env n).sigint = false) :
    ∀ (idxs : List Nat) (statsArr : List TestStats) (scArr : List TestStopConditions)
      (st : ExecSt) (out : QueriesOut), st.gotSIGINT = false →
    runQueries env fuel t idxs statsArr scArr st = some out →
    ∀ j ∈ idxs, j < statsArr.length → (out.statsArr.getD j TestStats.init).ready = true := by
  intro idxs
  induction idxs with
  | nil => intro statsArr scArr st out _ _ j hj; simp at hj
  | cons i rest ih =>
    intro statsArr scArr st out hst h j hj hlt
    simp only [runQueries] at h
    split at h
    · exact absurd h (by simp)
    · rename_i so hso
      split at h
      · exact absurd h (by simp)
      · rename_i out' hrest
        simp only [Option.some.injEq] at h
        subst h
        obtain ⟨hsig, hready⟩ := runSlot_no_sigint env fuel t i (scArr.getD i {}) st so hs hst hso
        by_cases hjr : j ∈ rest
        · have := ih _ _ _ _ hsig hrest j hjr (by simpa [List.length_set] using hlt)
          simpa using this
        · have hji : j = i := by
            rcases List.mem_cons.mp hj with h' | h'
            · exact h'
            · exact absurd h' hjr
          subst hji
          have h1 := runQueries_untouched env fuel t rest _ _ _ _ hrest j hjr
          simp only [h1]
          rw [getD_set_self statsArr j so.stats TestStats.init hlt]
          exact hready

theorem runQueries_invoke_mem (env : Nat → ExecEffect) (fuel : Nat) (t : ExecutionType) :
    ∀ (idxs : List Nat) (statsArr : List TestStats) (scArr : List TestStopConditions)
      (st : ExecSt) (out : QueriesOut),
    runQueries env fuel t idxs statsArr scArr st = some out →
    ∀ j ∈ idxs, Ev.invoke j ∈ out.trace := by
  intro idxs
  induction idxs with
  | nil => intro statsArr scArr st out _ j hj; simp at hj
  | cons i rest ih =>
    intro statsArr scArr st out h j hj
    simp only [runQueries] at h
    split at h
    · exact absurd h (by simp)
    · rename_i so hso
      split at h
      · exact absurd h (by simp)
      · rename_i out' hrest
        simp only [Option.some.injEq] at h
        subst h
        rcases List.mem_cons.mp hj with h' | h'
        · subst h'
          obtain ⟨restTr, htr⟩ := runSlot_trace_head env fuel t j (scArr.getD j {}) st so hso
          simp [htr]
        · have := ih _ _ _ _ hrest j h'
          simp [this]

theorem runQueries_once_invokes (env : Nat → ExecEffect) (fuel : Nat) :
    ∀ (idxs : List Nat) (statsArr : List TestStats) (scArr : List TestStopConditions)
      (st : ExecSt) (out : QueriesOut),
    runQueries env fuel ExecutionType.Once idxs statsArr scArr st = some out →
    invokesOf out.trace = idxs.length := by
  intro idxs
  induction idxs with
  | nil =>
    intro statsArr scArr st out h
    simp only [runQueries, Option.some.injEq] at h
    subst h
    rfl
  | cons i rest ih =>
    intro statsArr scArr st out h
    simp only [runQueries] at h
    split at h
    · exact absurd h (by simp)
    · rename_i so hso
      split at h
      · exact absurd h (by simp)
      · rename_i out' hrest
        simp only [Option.some.injEq] at h
        subst h
        have h1 := runSlot_once_trace env fuel i (scArr.getD i {}) st so hso
        have h2 := ih _ _ _ _ hrest
        simp [h1, h2]

end PerfTest

namespace PerfTest

/-! ## Claim C2 -/

/-- Claim C2: in `Once` mode each run slot invokes the execution service
exactly once (and a batch of slots produces exactly one invocation per
slot); in `Loop` mode a slot invokes the service once first, then the loop
reports the iteration counters 1, 2, 3, … in order into the stop-condition
set, re-invokes the service after every report except the final one when
the stop was caused by `areFulfilled()`, and stops only with
`areFulfilled() = true`, with the interrupt flag set, or with a backend
exception. -/
theorem claim_C2 :
    ∀ (env : Nat → ExecEffect) (fuel : Nat) (i : Nat),
    (∀ (sc : TestStopConditions) (st : ExecSt) (so : SlotOut),
        runSlot env fuel ExecutionType.Once i sc st = some so →
        so.trace = [Ev.invoke i]) ∧
    (∀ (idxs : List Nat) (statsArr : List TestStats) (scArr : List TestStopConditions)
        (st : ExecSt) (out : QueriesOut),
        runQueries env fuel ExecutionType.Once idxs statsArr scArr st = some out →
        invokesOf out.trace = idxs.length) ∧
    (∀ (sc : TestStopConditions) (st : ExecSt) (so : SlotOut),
        runSlot env fuel ExecutionType.Loop i sc st = some so →
        ∃ rest, so.trace = Ev.invoke i :: rest) ∧
    (∀ (stats : TestStats) (sc : TestStopConditions) (st : ExecSt) (iteration : Nat)
        (out : LoopOut),
        slotLoop env i fuel stats sc st iteration = some out →
        itersOf out.trace = List.range' iteration (itersOf out.trace).length ∧
        invokesOf out.trace = expectedInvokes out.reason (itersOf out.trace).length ∧
        (out.reason = StopReason.fulfilled → out.sc.areFulfilled = true) ∧
        (out.reason = StopReason.sigint → out.st.gotSIGINT = true)) :=
  fun env fuel i =>
    ⟨fun sc st so h => runSlot_once_trace env fuel i sc st so h,
     fun idxs statsArr scArr st out h => runQueries_once_invokes env fuel idxs statsArr scArr st out h,
     fun sc st so h => runSlot_trace_head env fuel ExecutionType.Loop i sc st so h,
     fun stats sc st iteration out h =>
       have p := slotLoop_props env i fuel stats sc st iteration out h
       ⟨p.1, p.2.1, p.2.2.1, p.2.2.2.1⟩⟩

/-- Claim C2, witness: a loop slot with an iteration limit of 2 reports the
counters 1 and 2, invokes the service once inside the loop, and stops
because the conditions are fulfilled. -/
theorem claim_C2_witness :
    ∃ out : LoopOut,
      slotLoop (fun _ => { exn := none, sigint := false, rows := 5, bytes := 7, timeMs := 3 }) 0
        5 TestStats.init { iterationsLimit := some 2 } ⟨false, 0⟩ 1 = some out ∧
      itersOf out.trace = List.range' 1 (itersOf out.trace).length ∧
      invokesOf out.trace = expectedInvokes out.reason (itersOf out.trace).length ∧
      (out.reason = StopReason.fulfilled → out.sc.areFulfilled = true) := by
  have hout : slotLoop (fun _ => { exn := none, sigint := false, rows := 5, bytes := 7, timeMs := 3 })
      0 5 TestStats.init { iterationsLimit := some 2 } ⟨false, 0⟩ 1 =
      some ⟨⟨false, "", 5, 7, 1, false⟩,
            ⟨none, none, none, some 2, none, none, none, 3, 5, 7, 2, 3, 3, 3⟩,
            ⟨false, 1⟩,
            [Ev.reportIter 0 1, Ev.invoke 0, Ev.reportIter 0 2],
            StopReason.fulfilled⟩ := by decide
  have h := (claim_C2 (fun _ => { exn := none, sigint := false, rows := 5, bytes := 7, timeMs := 3 })
      5 0).2.2.2 TestStats.init { iterationsLimit := some 2 } ⟨false, 0⟩ 1 _ hout
  exact ⟨_, hout, h.1, h.2.1, h.2.2.1⟩

end PerfTest

namespace PerfTest

/-! ## Lemmas about reporting -/

theorem getD_replicate {α : Type} (a : α) :
    ∀ (n j : Nat), (List.replicate n a).getD j a = a := by
  intro n
  induction n with
  | zero => intro j; simp [List.getD]
  | succ m ih =>
    intro j
    cases j with
    | zero => simp [List.replicate]
    | succ j' => simp [List.replicate, List.getD_cons_succ, ih j']

theorem constructTotalInfo_mem (queries : List Str) (T : Nat) (statsArr : List TestStats)
    (qi l : Nat) (hqi : qi < queries.length) (hl : l < T)
    (hready : (statsArr.getD (l * queries.length + qi) {}).ready = true) :
    ({ queryIndex := qi, launch := l, query := queries.getD qi [],
       exceptionText :=
         if (statsArr.getD (l * queries.length + qi) {}).exception = "" then none
         else some (statsArr.getD (l * queries.length + qi) {}).exception } : RunRecord)
      ∈ constructTotalInfo queries T statsArr := by
  unfold constructTotalInfo
  rw [List.mem_flatMap]
  refine ⟨qi, List.mem_range.mpr hqi, ?_⟩
  rw [List.mem_filterMap]
  refine ⟨l, List.mem_range.mpr hl, ?_⟩
  rw [if_pos hready]

theorem filterMap_if_proj (qi : Nat) (pready : Nat → Bool) (mk : Nat → RunRecord)
    (hq : ∀ l, (mk l).queryIndex = qi) (hl : ∀ l, (mk l).launch = l) :
    ∀ L : List Nat,
    ((L.filterMap fun l => if pready l = true then some (mk l) else none).map
        fun r => (r.queryIndex, r.launch)) =
      (L.map fun l => (qi, l)).filter fun p => pready p.2 := by
  intro L
  induction L with
  | nil => simp
  | cons x rest ih =>
    by_cases hr : pready x = true
    · simp [hr, ih, hq, hl]
    · simp only [Bool.not_eq_true] at hr
      simp [hr, ih]

theorem constructTotalInfo_ready_filter (queries : List Str) (T : Nat)
    (statsArr : List TestStats) :
    (constructTotalInfo queries T statsArr).map (fun r => (r.queryIndex, r.launch)) =
    (gridPairs queries.length T).filter
      (fun p => (statsArr.getD (p.2 * queries.length + p.1) {}).ready) := by
  unfold constructTotalInfo gridPairs
  have hmap : ∀ (Ls : List Nat) (F : Nat → List RunRecord),
      ((Ls.flatMap F).map fun r => (r.queryIndex, r.launch)) =
        Ls.flatMap fun qi => ((F qi).map fun r => (r.queryIndex, r.launch)) := by
    intro Ls F
    induction Ls with
    | nil => simp
    | cons x rest ih => simp [ih]
  have hfil : ∀ (Ls : List Nat) (G : Nat → List (Nat × Nat)) (p : Nat × Nat → Bool),
      ((Ls.flatMap G).filter p) = Ls.flatMap fun qi => ((G qi).filter p) := by
    intro Ls G p
    induction Ls with
    | nil => simp
    | cons x rest ih => simp [ih]
  rw [hmap, hfil]
  congr 1
  funext qi
  have hc : (((List.range T).map fun l => (qi, l)).filter
        fun p => (statsArr.getD (p.2 * queries.length + p.1) {}).ready) =
      (((List.range T).map fun l => (qi, l)).filter
        fun p => (statsArr.getD (p.2 * queries.length + qi) {}).ready) := by
    apply List.filter_congr
    intro p hp
    rcases List.mem_map.mp hp with ⟨l, _, rfl⟩
    rfl
  rw [hc]
  exact filterMap_if_proj qi
    (fun launch => (statsArr.getD (launch * queries.length + qi) {}).ready)
    (fun launch =>
      { queryIndex := qi, launch := launch, query := queries.getD qi [],
        exceptionText :=
          if (statsArr.getD (launch * queries.length + qi) {}).exception = "" then none
          else some (statsArr.getD (launch * queries.length + qi) {}).exception })
    (fun _ => rfl) (fun _ => rfl) (List.range T)

theorem constructTotalInfo_replicate_init (queries : List Str) (T n : Nat) :
    constructTotalInfo queries T (List.replicate n TestStats.init) = [] := by
  unfold constructTotalInfo
  apply List.flatMap_eq_nil_iff.mpr
  intro qi _
  apply List.filterMap_eq_nil_iff.mpr
  intro a _
  have hg : (List.replicate n TestStats.init).getD (a * queries.length + qi) {} =
      TestStats.init := getD_replicate TestStats.init n _
  rw [hg]
  rfl

theorem runLaunches_interrupted (env : Nat → ExecEffect) (envBetween : Nat → Bool)
    (fuel : Nat) (t : ExecutionType) (numQueries : Nat) :
    ∀ (launches : List Nat) (statsArr : List TestStats) (scArr : List TestStopConditions)
      (st : ExecSt) (out : LaunchesOut), st.gotSIGINT = true →
    runLaunches env envBetween fuel t numQueries launches statsArr scArr st = some out →
    out.trace = [] ∧ out.statsArr = statsArr := by
  intro launches statsArr scArr st out hst h
  cases launches with
  | nil =>
    simp only [runLaunches, Option.some.injEq] at h
    subst h
    exact ⟨rfl, rfl⟩
  | cons launch rest =>
    simp only [runLaunches] at h
    have h1 : (if envBetween launch then { st with gotSIGINT := true } else st).gotSIGINT =
        true := by
      split <;> simp [hst]
    rw [if_pos h1] at h
    simp only [Option.some.injEq] at h
    subst h
    exact ⟨rfl, rfl⟩

/-! ## Claim C4 -/

/-- Claim C4: a backend exception raised during one run slot is caught and
recorded as that slot's exception message; with no interrupt delivered,
every queued slot is still invoked (its `invoke` event appears in the
trace) and every processed slot, the failing one included, is marked
ready; a ready slot with a non-empty exception string appears in
`constructTotalInfo`'s run records carrying exactly that exception text. -/
theorem claim_C4 :
    ∀ (env : Nat → ExecEffect) (fuel : Nat) (t : ExecutionType),
    (∀ (i : Nat) (sc : TestStopConditions) (st : ExecSt) (so : SlotOut) (msg : String),
        (env st.counter).exn = some msg →
        runSlot env fuel t i sc st = some so → so.stats.exception = msg) ∧
    (∀ (idxs : List Nat) (statsArr : List TestStats) (scArr : List TestStopConditions)
        (st : ExecSt) (out : QueriesOut),
        (∀ n, (env n).sigint = false) → st.gotSIGINT = false →
        runQueries env fuel t idxs statsArr scArr st = some out →
        ∀ j ∈ idxs, Ev.invoke j ∈ out.trace ∧
          (j < statsArr.length → (out.statsArr.getD j TestStats.init).ready = true)) ∧
    (∀ (queries : List Str) (T : Nat) (statsArr : List TestStats) (qi l : Nat) (msg : String),
        qi < queries.length → l < T →
        (statsArr.getD (l * queries.length + qi) {}).ready = true →
        (statsArr.getD (l * queries.length + qi) {}).exception = msg → msg ≠ "" →
        ∃ rec ∈ constructTotalInfo queries T statsArr,
          rec.queryIndex = qi ∧ rec.launch = l ∧ rec.exceptionText = some msg) := by
  intro env fuel t
  refine ⟨?_, ?_, ?_⟩
  · intro i sc st so msg hmsg h
    exact runSlot_exception env fuel t i sc st so msg hmsg h
  · intro idxs statsArr scArr st out hs hst h j hj
    exact ⟨runQueries_invoke_mem env fuel t idxs statsArr scArr st out h j hj,
           fun hlt => runQueries_ready env fuel t hs idxs statsArr scArr st out hst h j hj hlt⟩
  · intro queries T statsArr qi l msg hqi hl hready hexc hne
    refine ⟨_, constructTotalInfo_mem queries T statsArr qi l hqi hl hready, rfl, rfl, ?_⟩
    rw [hexc]
    simp [hne]

/-- Claim C4, witness: a backend exception `"boom"` on the only invocation
of a slot is recorded as the slot's exception message. -/
theorem claim_C4_witness :
    ∃ so : SlotOut,
      runSlot (fun _ => { exn := some ("boom") }) 3 ExecutionType.Once 0 {} ⟨false, 0⟩ =
        some so ∧
      so.stats.exception = "boom" := by
  have hso : runSlot (fun _ => { exn := some ("boom") }) 3 ExecutionType.Once 0 {} ⟨false, 0⟩ =
      some ⟨⟨true, "boom", 0, 0, 0, false⟩, {}, ⟨false, 1⟩, [Ev.invoke 0]⟩ := by decide
  exact ⟨_, hso,
    (claim_C4 (fun _ => { exn := some ("boom") }) 3 ExecutionType.Once).1
      0 {} ⟨false, 0⟩ _ ("boom") (by decide) hso⟩

/-! ## Claim C5 -/

/-- Claim C5: a run-slot record is included in `constructTotalInfo`'s output
exactly when that slot's statistics are `ready` (the projection of the
record list onto `(query_index, launch)` pairs is the ready-filtered grid);
once the interrupt flag is set the launch loop breaks immediately, running
no further slot and leaving the statistics untouched; and a statistics
array still in its freshly resized state (all slots unexecuted, `ready`
false) produces no records at all. -/
theorem claim_C5 :
    ∀ (queries : List Str) (T : Nat) (statsArr : List TestStats),
    ((constructTotalInfo queries T statsArr).map fun r => (r.queryIndex, r.launch)) =
      (gridPairs queries.length T).filter
        (fun p => (statsArr.getD (p.2 * queries.length + p.1) {}).ready) ∧
    (∀ (env : Nat → ExecEffect) (envBetween : Nat → Bool) (fuel : Nat) (t : ExecutionType)
        (numQueries : Nat) (launches : List Nat) (scArr : List TestStopConditions)
        (st : ExecSt) (out : LaunchesOut), st.gotSIGINT = true →
        runLaunches env envBetween fuel t numQueries launches statsArr scArr st = some out →
        out.trace = [] ∧ out.statsArr = statsArr) ∧
    (∀ n : Nat, constructTotalInfo queries T (List.replicate n TestStats.init) = []) := by
  intro queries T statsArr
  refine ⟨constructTotalInfo_ready_filter queries T statsArr, ?_, ?_⟩
  · intro env envBetween fuel t numQueries launches scArr st out hst h
    exact runLaunches_interrupted env envBetween fuel t numQueries launches statsArr scArr
      st out hst h
  · intro n
    exact constructTotalInfo_replicate_init queries T n

/-- Claim C5, witness: with the interrupt flag already set, the launch loop
produces no trace events and leaves the statistics array unchanged. -/
theorem claim_C5_witness :
    ∃ out : LaunchesOut,
      runLaunches (fun _ => {}) (fun _ => false) 2 ExecutionType.Once 1 [0]
        [TestStats.init] [{}] ⟨true, 0⟩ = some out ∧
      out.trace = [] ∧ out.statsArr = [TestStats.init] := by
  have hout : runLaunches (fun _ => {}) (fun _ => false) 2 ExecutionType.Once 1 [0]
      [TestStats.init] [{}] ⟨true, 0⟩ =
      some ⟨[TestStats.init], [{}], ⟨true, 0⟩, []⟩ := by decide
  have h := (claim_C5 [] 0 [TestStats.init]).2.1 (fun _ => {}) (fun _ => false) 2
    ExecutionType.Once 1 [0] [{}] ⟨true, 0⟩ _ (by decide) hout
  exact ⟨_, hout, h.1, h.2⟩

end PerfTest

namespace PerfTest

/-! ## Claim C10 -/

theorem length_flatMap_const {α β : Type} :
    ∀ (l : List α) (f : α → List β) (k : Nat), (∀ a ∈ l, (f a).length = k) →
    (l.flatMap f).length = l.length * k := by
  intro l
  induction l with
  | nil => intro f k _; simp
  | cons x rest ih =>
    intro f k hk
    have h1 : (f x).length = k := hk x (by simp)
    have h2 : (rest.flatMap f).length = rest.length * k :=
      ih f k (fun a ha => hk a (by simp [ha]))
    simp only [List.flatMap_cons, List.length_append, List.length_cons, h1, h2]
    ring

/-- Claim C10: the compact lite report emits one newline-terminated chunk
for every `(query, repetition)` slot — exactly
`number-of-queries * times_to_run` of them, in the source's emission order —
for every statistics array whatsoever, so interrupted or never-executed
slots (`ready = false`) are included all the same; `minOutput` is the
concatenation of those chunks. -/
theorem claim_C10 :
    ∀ (getStat : TestStats → String → String) (queries : List Str) (timesToRun : Nat)
      (substitutionsMaps : List (List (String × String))) (mainMetric : String)
      (statsArr : List TestStats),
    (minOutputChunks getStat queries timesToRun substitutionsMaps mainMetric statsArr).length =
      queries.length * timesToRun ∧
    minOutput getStat queries timesToRun substitutionsMaps mainMetric statsArr =
      (minOutputChunks getStat queries timesToRun substitutionsMaps mainMetric statsArr).foldl
        (fun a b => a ++ b) "" ∧
    (∀ c ∈ minOutputChunks getStat queries timesToRun substitutionsMaps mainMetric statsArr,
      ∃ s, c = s ++ "\n") := by
  intro getStat queries timesToRun substitutionsMaps mainMetric statsArr
  refine ⟨?_, rfl, ?_⟩
  · unfold minOutputChunks
    rw [length_flatMap_const (List.range queries.length) _ timesToRun ?_]
    · simp
    · intro a _
      simp
  · intro c hc
    unfold minOutputChunks at hc
    rcases List.mem_flatMap.mp hc with ⟨qi, _, hc2⟩
    rcases List.mem_map.mp hc2 with ⟨l, _, rfl⟩
    exact ⟨_, rfl⟩

/-- Claim C10, witness: two queries at two repetitions give four chunks,
whatever the (here: empty, hence all-default, never-ready) statistics
array holds. -/
theorem claim_C10_witness :
    (minOutputChunks (fun _ _ => "0") ["a".data, "b".data] 2 [] ("m") []).length = 4 :=
  (claim_C10 (fun _ _ => "0") ["a".data, "b".data] 2 [] ("m") []).1

/-! ## Claim C9 -/

/-- The metrics list `setupMetrics` validates always extends the requested
keys. -/
theorem setupMetrics_sub (metricKeys mainMetricKeys : List String) (lite : Bool)
    (ms : List String) (mm : String)
    (h : setupMetrics metricKeys mainMetricKeys lite = Except.ok (ms, mm)) :
    ∀ m ∈ metricKeys, m ∈ ms := by
  unfold setupMetrics at h
  by_cases hmm : mainMetricKeys.headD "" ≠ ""
  · rw [if_pos hmm] at h
    simp only [Except.ok.injEq, Prod.mk.injEq] at h
    obtain ⟨hms, _⟩ := h
    intro m hm
    subst hms
    split
    · exact hm
    · exact List.mem_append_left _ hm
  · rw [if_neg hmm] at h
    by_cases hke : metricKeys.isEmpty
    · rw [if_pos hke] at h
      exact absurd h (by simp)
    · rw [if_neg hke] at h
      by_cases hl : lite
      · rw [if_pos hl] at h
        exact absurd h (by simp)
      · rw [if_neg hl] at h
        simp only [Except.ok.injEq, Prod.mk.injEq] at h
        obtain ⟨hms, _⟩ := h
        subst hms
        intro m hm
        exact hm

/-- Claim C9: whenever the main-metric processing of `runTest` succeeds, the
resulting metrics list (the one later validated by `checkMetricsInput` and
used for reporting) contains the main metric — an explicitly given main
metric missing from the requested list is appended; when no main metric is
given, the processing succeeds exactly by promoting the first requested
metric (lite output aside), and a specification with neither metrics nor a
main metric is rejected. -/
theorem claim_C9 :
    ∀ (metricKeys mainMetricKeys : List String) (lite : Bool),
    (∀ (ms : List String) (mm : String),
        setupMetrics metricKeys mainMetricKeys lite = Except.ok (ms, mm) → mm ∈ ms) ∧
    (mainMetricKeys.headD "" = "" → metricKeys ≠ [] → lite = false →
        setupMetrics metricKeys mainMetricKeys lite =
          Except.ok (metricKeys, metricKeys.headD "")) ∧
    (mainMetricKeys.headD "" = "" → metricKeys = [] →
        ∃ e, setupMetrics metricKeys mainMetricKeys lite = Except.error e) := by
  intro metricKeys mainMetricKeys lite
  refine ⟨?_, ?_, ?_⟩
  · intro ms mm h
    unfold setupMetrics at h
    by_cases hmm : mainMetricKeys.headD "" ≠ ""
    · rw [if_pos hmm] at h
      simp only [Except.ok.injEq, Prod.mk.injEq] at h
      obtain ⟨hms, hmm2⟩ := h
      subst hms
      subst hmm2
      split
      · assumption
      · exact List.mem_append_right _ (by simp)
    · rw [if_neg hmm] at h
      by_cases hke : metricKeys.isEmpty
      · rw [if_pos hke] at h
        exact absurd h (by simp)
      · rw [if_neg hke] at h
        by_cases hl : lite
        · rw [if_pos hl] at h
          exact absurd h (by simp)
        · rw [if_neg hl] at h
          simp only [Except.ok.injEq, Prod.mk.injEq] at h
          obtain ⟨hms, hmm2⟩ := h
          subst hms
          subst hmm2
          cases metricKeys with
          | nil => simp at hke
          | cons a rest => simp
  · intro hmm hne hl
    unfold setupMetrics
    rw [if_neg (by simpa using hmm)]
    rw [if_neg (by simpa using hne)]
    rw [if_neg (by simp [hl])]
  · intro hmm hke
    unfold setupMetrics
    rw [if_neg (by simpa using hmm)]
    rw [if_pos (by simp [hke])]
    exact ⟨_, rfl⟩

/-- Claim C9, witness: an explicit main metric `"m"` missing from the
requested list `["a"]` ends up in the validated list. -/
theorem claim_C9_witness :
    ∃ (ms : List String) (mm : String),
      setupMetrics ["a"] ["m"] false = Except.ok (ms, mm) ∧ mm ∈ ms :=
  ⟨["a", "m"], "m", by rfl,
   (claim_C9 ["a"] ["m"] false).1 ["a", "m"] ("m") (by rfl)⟩

end PerfTest

namespace PerfTest

theorem runTest_to_exec (fuel : Nat) (lite : Bool) (getStat : TestStats → String → String)
    (cfg : TestConfig) (env : Nat → ExecEffect) (envBetween : Nat → Bool) (res : RunResult)
    (h : runTest fuel lite getStat cfg env envBetween = some res) :
    (∃ e, res = (Except.error e, [])) ∨
    (∃ (t : ExecutionType) (queries : List Str),
      parseType cfg.name cfg.ctype = Except.ok t ∧
      runTestExec fuel lite getStat t queries cfg.stopConditions cfg.timesToRun
        cfg.metricKeys cfg.mainMetricKeys env envBetween = some res) := by
  unfold runTest at h
  have hsubst : ∀ (qs : List Str),
      runTestSubst fuel lite getStat cfg env envBetween qs = some res →
      (∃ e, res = (Except.error e, [])) ∨
      (∃ (t : ExecutionType) (queries : List Str),
        parseType cfg.name cfg.ctype = Except.ok t ∧
        runTestExec fuel lite getStat t queries cfg.stopConditions cfg.timesToRun
          cfg.metricKeys cfg.mainMetricKeys env envBetween = some res) := by
    intro qs h
    unfold runTestSubst at h
    split at h
    · simp only [Option.some.injEq] at h
      exact Or.inl ⟨_, h.symm⟩
    · cases hafter : afterSubstitutions fuel cfg qs with
      | none => rw [hafter] at h; exact absurd h (by simp)
      | some queries =>
        rw [hafter] at h
        cases ht : parseType cfg.name cfg.ctype with
        | error e =>
          rw [ht] at h
          simp only [Option.some.injEq] at h
          exact Or.inl ⟨_, h.symm⟩
        | ok t =>
          rw [ht] at h
          exact Or.inr ⟨t, queries, rfl, h⟩
  split at h
  · simp only [Option.some.injEq] at h
    exact Or.inl ⟨_, h.symm⟩
  · simp only [Option.some.injEq] at h
    exact Or.inl ⟨_, h.symm⟩
  · exact hsubst _ h
  · exact hsubst _ h

theorem runTestExec_empty_stop (fuel : Nat) (lite : Bool)
    (getStat : TestStats → String → String) (execType : ExecutionType) (queries : List Str)
    (stopTemplate : TestStopConditions) (times : Nat) (metricKeys mainMetricKeys : List String)
    (env : Nat → ExecEffect) (envBetween : Nat → Bool) (res : RunResult)
    (hempty : stopTemplate.empty = true)
    (h : runTestExec fuel lite getStat execType queries stopTemplate times metricKeys
        mainMetricKeys env envBetween = some res) :
    ∃ e, res = (Except.error e, []) := by
  unfold runTestExec at h
  rw [if_pos hempty] at h
  simp only [Option.some.injEq] at h
  exact ⟨_, h.symm⟩

theorem runTestExec_metric_mismatch (fuel : Nat) (lite : Bool)
    (getStat : TestStats → String → String) (execType : ExecutionType) (queries : List Str)
    (stopTemplate : TestStopConditions) (times : Nat) (metricKeys mainMetricKeys : List String)
    (env : Nat → ExecEffect) (envBetween : Nat → Bool) (res : RunResult)
    (hdisj : (execType = ExecutionType.Loop ∧ ∃ m ∈ metricKeys, m ∈ non_loop_metrics) ∨
             (execType = ExecutionType.Once ∧ ∃ m ∈ metricKeys, m ∈ loop_metrics))
    (h : runTestExec fuel lite getStat execType queries stopTemplate times metricKeys
        mainMetricKeys env envBetween = some res) :
    ∃ e, res = (Except.error e, []) := by
  unfold runTestExec at h
  by_cases hempty : stopTemplate.empty = true
  · rw [if_pos hempty] at h
    simp only [Option.some.injEq] at h
    exact ⟨_, h.symm⟩
  · rw [if_neg hempty] at h
    rcases hdisj with ⟨hty, m, hmk, hmm⟩ | ⟨hty, m, hmk, hmm⟩
    · subst hty
      split at h
      · simp only [Option.some.injEq] at h
        exact ⟨_, h.symm⟩
      · rename_i metrics mainMetric hsm
        have hms : m ∈ metrics := setupMetrics_sub _ _ _ _ _ hsm m hmk
        have hpos : 0 < metrics.length := List.length_pos.mpr (fun he => by
          rw [he] at hms; simp at hms)
        split at h
        · simp only [Option.some.injEq] at h
          exact ⟨_, h.symm⟩
        · rename_i a hok
          exfalso
          rw [if_pos hpos] at hok
          simp only [checkMetricsInput] at hok
          cases hfind : metrics.find? (fun x => decide (x ∈ non_loop_metrics)) with
          | none =>
            have hn := List.find?_eq_none.mp hfind m hms
            simp [hmm] at hn
          | some m' =>
            rw [hfind] at hok
            exact absurd hok (by simp)
    · subst hty
      split at h
      · simp only [Option.some.injEq] at h
        exact ⟨_, h.symm⟩
      · rename_i metrics mainMetric hsm
        have hms : m ∈ metrics := setupMetrics_sub _ _ _ _ _ hsm m hmk
        have hpos : 0 < metrics.length := List.length_pos.mpr (fun he => by
          rw [he] at hms; simp at hms)
        split at h
        · simp only [Option.some.injEq] at h
          exact ⟨_, h.symm⟩
        · rename_i a hok
          exfalso
          rw [if_pos hpos] at hok
          simp only [checkMetricsInput] at hok
          cases hfind : metrics.find? (fun x => decide (x ∈ loop_metrics)) with
          | none =>
            have hn := List.find?_eq_none.mp hfind m hms
            simp [hmm] at hn
          | some m' =>
            rw [hfind] at hok
            exact absurd hok (by simp)

end PerfTest

namespace PerfTest

/-! ## Claim C3 -/

/-- Claim C3: a test specification whose stop-condition template has no
configured predicate makes `runTest` throw a `BAD_ARGUMENTS` error before
any run slot is executed — whenever `runTest` returns at all it returns an
error result with an empty execution trace. -/
theorem claim_C3 :
    ∀ (fuel : Nat) (lite : Bool) (getStat : TestStats → String → String) (cfg : TestConfig)
      (env : Nat → ExecEffect) (envBetween : Nat → Bool) (res : RunResult),
    runTest fuel lite getStat cfg env envBetween = some res →
    cfg.stopConditions.empty = true →
    ∃ e, res = (Except.error e, []) := by
  intro fuel lite getStat cfg env envB res h hempty
  rcases runTest_to_exec fuel lite getStat cfg env envB res h with he | ⟨t, queries, _, hexec⟩
  · exact he
  · exact runTestExec_empty_stop fuel lite getStat t queries cfg.stopConditions cfg.timesToRun
      cfg.metricKeys cfg.mainMetricKeys env envB res hempty hexec

/-- Claim C3, witness: a configuration with a query and a type but no stop
conditions is rejected with an empty trace. -/
theorem claim_C3_witness :
    ∃ e, ((Except.error ("No termination conditions were found in config") :
            Except String TestOutput), ([] : List Ev)) = (Except.error e, []) :=
  claim_C3 1 false (fun _ _ => "") { name := "t", query := some [['q']], ctype := some ("once") }
    (fun _ => {}) (fun _ => false)
    (Except.error ("No termination conditions were found in config"), []) rfl rfl

/-! ## Claim C6 -/

/-- Claim C6: requesting a non-loop metric (`max_rows_per_second`,
`max_bytes_per_second`, `avg_rows_per_second`, `avg_bytes_per_second`) for
a `loop`-type test, or a loop metric (`min_time`, `quantiles`,
`total_time`, `queries_per_second`, `rows_per_second`, `bytes_per_second`)
for a `once`-type test, makes `runTest` raise a configuration error before
any run slot executes: whenever `runTest` returns at all it returns an
error result with an empty execution trace. -/
theorem claim_C6 :
    ∀ (fuel : Nat) (lite : Bool) (getStat : TestStats → String → String) (cfg : TestConfig)
      (env : Nat → ExecEffect) (envBetween : Nat → Bool) (res : RunResult),
    runTest fuel lite getStat cfg env envBetween = some res →
    ((cfg.ctype = some ("loop") ∧ ∃ m ∈ cfg.metricKeys, m ∈ non_loop_metrics) ∨
     (cfg.ctype = some ("once") ∧ ∃ m ∈ cfg.metricKeys, m ∈ loop_metrics)) →
    ∃ e, res = (Except.error e, []) := by
  intro fuel lite getStat cfg env envB res h hdisj
  rcases runTest_to_exec fuel lite getStat cfg env envB res h with he | ⟨t, queries, hp, hexec⟩
  · exact he
  · refine runTestExec_metric_mismatch fuel lite getStat t queries cfg.stopConditions
      cfg.timesToRun cfg.metricKeys cfg.mainMetricKeys env envB res ?_ hexec
    rcases hdisj with ⟨hty, hm⟩ | ⟨hty, hm⟩
    · rw [hty] at hp
      simp [parseType] at hp
      subst hp
      exact Or.inl ⟨rfl, hm⟩
    · rw [hty] at hp
      simp [parseType] at hp
      subst hp
      exact Or.inr ⟨rfl, hm⟩

/-- Claim C6, witness: requesting `max_rows_per_second` for a `loop`-type
test is rejected with an empty trace. -/
theorem claim_C6_witness :
    ∃ e, ((Except.error ("Wrong type of metric for loop execution type (max_rows_per_second)") :
            Except String TestOutput), ([] : List Ev)) = (Except.error e, []) :=
  claim_C6 1 false (fun _ _ => "")
    { name := "t", query := some [['q']], ctype := some ("loop"),
      stopConditions := { iterationsLimit := some 1 },
      metricKeys := ["max_rows_per_second"] }
    (fun _ => {}) (fun _ => false)
    (Except.error ("Wrong type of metric for loop execution type (max_rows_per_second)"), [])
    rfl (Or.inl ⟨rfl, "max_rows_per_second", by decide, by decide⟩)

end PerfTest
